import Mathlib

/-!
Verification of the DevSync role-based permission resolution engine.

Shallow embedding of `backend/devsync/roles/` (models.py, services/permissions.py,
services/checkers.py, services/services.py, services/utils.py). Django querysets
become list filters over an explicit database value; dicts become association
lists; raised exceptions become explicit outcome values. Caches (TTL layers of
roles/services/cache.py) are explicit association-list state threaded through the
functions that read and write them.
-/

namespace DevSync

/-- Catalog entry (roles/models.py `Permission`): unique `codename` and a
`default_value` used as the fallback when no role states an opinion. -/
structure Permission where
  codename : String
  default_value : Bool
deriving Repr, DecidableEq

/-- A role's explicit tri-state permission row (roles/models.py `RolePermission`):
`value` of `none` models SQL NULL ("no opinion"). `permission_id` is the FK to
`Permission.codename` (`to_field='codename'`). -/
structure RolePermission where
  permission_id : String
  value : Option Bool
deriving Repr, DecidableEq

/-- roles/models.py `Role`: belongs to one project, has an integer `rank` and an
`is_everyone` flag. `permissions` are the role's prefetched `RolePermission`
rows (`role.permissions.all()`). -/
structure Role where
  id : Nat
  project_id : Nat
  rank : Int
  is_everyone : Bool
  permissions : List RolePermission
deriving Repr, DecidableEq

/-- roles/models.py `MemberRole`: explicit (role, user) assignment. -/
structure MemberRole where
  role_id : Nat
  user_id : Nat
deriving Repr, DecidableEq

/-- projects/models.py `Project` (the part this engine reads): id and owner. -/
structure Project where
  id : Nat
  owner_id : Nat
deriving Repr, DecidableEq

/-- The persistent store the engine reads: project rows, the permission catalog
(`Permission.objects.cached()`), role rows with their permission rows, and
membership rows. -/
structure DB where
  projects : List Project
  catalog : List Permission
  roles : List Role
  memberships : List MemberRole
deriving Repr

/-- Exact-key association lookup, the model of Python dict indexing and of
queryset `get` by unique key: first binding of the key wins. -/
def assoc {κ α : Type} [DecidableEq κ] (k : κ) : List (κ × α) → Option α
  | [] => none
  | (k', v) :: rest => if k = k' then some v else assoc k rest

/-- roles/models.py line 16: `rank` field validators are
`MinValueValidator(1), MaxValueValidator(100)`; a rank passes model/serializer
validation exactly when it lies in that closed interval. -/
def rankValid (r : Int) : Bool := 1 ≤ r && r ≤ 100

/-- roles/services/utils.py `create_everyone_role`: builds the auto-created
`@everyone` role of a project, rank 0, `is_everyone=True`, with no permission
rows. The primary key is DB-assigned and irrelevant here (fixed to 0). -/
def create_everyone_role (project : Project) : Role :=
  { id := 0, project_id := project.id, rank := 0, is_everyone := true, permissions := [] }

/-- Modelled from the spec: roles/services/enum.py (`PermissionsEnum`) is absent
from the source snapshot; only its members' uses survive. The guard appends the
`PROJECT_MANAGE` codename as the implicit manage-all fallback (spec section 4.4
and 4.6). No claim depends on the concrete codename string, so it is fixed. -/
def PROJECT_MANAGE : String := "project_manage"

/-- Modelled from the spec: roles/services/cache.py is absent from the source
snapshot. Spec section 4.3 specifies three independent TTL key spaces with
`get -> value | miss` and `set(key, value, ttl)` and no cross-key invalidation.
TTLs only bound staleness and no claim depends on elapsed time, so entries are
modelled without expiry: each layer is an association list, a `set` prepends. -/
structure Cache where
  userRoles : List ((Nat × Nat) × List Role)
  userPerms : List ((Nat × Nat) × List (String × Option Bool))
  permCheck : List ((Nat × Nat × List String) × Bool)
deriving Repr

/-- The empty cache: every lookup misses (the state of a first invocation). -/
def emptyCache : Cache := { userRoles := [], userPerms := [], permCheck := [] }

/-- A resolved permission map: one entry per catalog codename, `none` meaning
the Python dict value `None` (tri-state not yet decided). -/
abbrev PermMap := List (String × Option Bool)

/-- True when some membership row assigns `role_id` to `user_id`
(the model of the `members__user_id` join condition). -/
def isMemberOfRole (db : DB) (role_id user_id : Nat) : Bool :=
  db.memberships.any (fun mr => mr.role_id = role_id && mr.user_id = user_id)

/-- Stable insertion step of the rank-descending sort modelling
`order_by('-rank')`. -/
def insertByRankDesc (r : Role) : List Role → List Role
  | [] => [r]
  | x :: xs => if x.rank < r.rank then r :: x :: xs else x :: insertByRankDesc r xs

/-- Sort a role list by rank descending (the model of `order_by('-rank')`). -/
def sortByRankDesc (l : List Role) : List Role := l.foldr insertByRankDesc []

namespace Permissions

/-- The database query inside roles/services/permissions.py
`_fetch_user_roles_with_permissions`: roles of the project that are either
explicitly assigned to the user or are the everyone role, rank-descending. -/
def queryUserRoles (db : DB) (project : Project) (user_id : Nat) : List Role :=
  sortByRankDesc
    (db.roles.filter
      (fun r => r.project_id = project.id && (isMemberOfRole db r.id user_id || r.is_everyone)))

/-- roles/services/permissions.py `_fetch_user_roles_with_permissions`:
consult the roles cache; on miss run the query and cache the result. -/
def fetch_user_roles_with_permissions (db : DB) (project : Project) (user_id : Nat)
    (c : Cache) : List Role × Cache :=
  match assoc (project.id, user_id) c.userRoles with
  | some rs => (rs, c)
  | none =>
    let rs := queryUserRoles db project user_id
    (rs, { c with userRoles := ((project.id, user_id), rs) :: c.userRoles })

/-- Set the value bound to codename `k` in a permission map (Python dict item
assignment `permission_map[k] = v`; all bindings of `k` are updated, which
coincides with dict semantics since the map is keyed by catalog codenames). -/
def updateEntry (m : PermMap) (k : String) (v : Option Bool) : PermMap :=
  m.map (fun p => if p.1 = k then (p.1, v) else p)

/-- One step of roles/services/permissions.py `_apply_role_permissions`: a row
with a non-null value sets the codename only when the map still holds `None`.
A row whose codename is outside the map is a no-op (in Python it would raise
KeyError, impossible for rows satisfying the FK onto the catalog). -/
def applyRowIfOpen (m : PermMap) (row : RolePermission) : PermMap :=
  match row.value with
  | none => m
  | some v =>
    if assoc row.permission_id m = some none then updateEntry m row.permission_id (some v) else m

/-- roles/services/permissions.py `_apply_role_permissions`: fold the role's
rows over the permission map. -/
def apply_role_permissions (role : Role) (m : PermMap) : PermMap :=
  role.permissions.foldl applyRowIfOpen m

/-- roles/services/permissions.py `_apply_default_permissions`: every codename
still `None` receives `default_permissions.get(codename)`. -/
def apply_default_permissions (m : PermMap) (defaults : List (String × Bool)) : PermMap :=
  m.map (fun p => match p.2 with
    | none => (p.1, assoc p.1 defaults)
    | some v => (p.1, some v))

/-- The role loop of roles/services/permissions.py `_get_member_permissions`
(lines 177-182): apply each role in the given order; at the everyone role apply
the defaults and stop. -/
def processRoles (defaults : List (String × Bool)) : List Role → PermMap → PermMap
  | [], m => m
  | r :: rs, m =>
    let m' := apply_role_permissions r m
    if r.is_everyone then apply_default_permissions m' defaults
    else processRoles defaults rs m'

/-- roles/services/permissions.py `_get_member_permissions`: the owner receives
every catalog permission as `True`; otherwise consult the permission-map cache;
on miss initialize every codename to `None`, run the role loop, cache and
return the result. -/
def get_member_permissions_inner (db : DB) (project : Project) (user_id : Nat)
    (roles : List Role) (c : Cache) : PermMap × Cache :=
  if project.owner_id = user_id then
    (db.catalog.map (fun p => (p.codename, some true)), c)
  else
    match assoc (project.id, user_id) c.userPerms with
    | some m => (m, c)
    | none =>
      let m0 : PermMap := db.catalog.map (fun p => (p.codename, (none : Option Bool)))
      let defaults := db.catalog.map (fun p => (p.codename, p.default_value))
      let result := processRoles defaults roles m0
      (result, { c with userPerms := ((project.id, user_id), result) :: c.userPerms })

/-- roles/services/permissions.py `get_member_permissions` (line 232): fetch the
user's roles (cache-or-query) and resolve the permission map. -/
def get_member_permissions (db : DB) (project : Project) (user_id : Nat)
    (c : Cache) : PermMap × Cache :=
  let fetched := fetch_user_roles_with_permissions db project user_id c
  get_member_permissions_inner db project user_id fetched.1 fetched.2

end Permissions

/-- When a checker runs in the guard (roles/services/checkers.py
`BaseParamChecker.__init__`). -/
inductive CheckOrder
  | pre
  | post
deriving Repr, DecidableEq

/-- The concrete checker variants of roles/services/checkers.py, each carrying
its already-loaded source value (`load_source` has run: `_source` is set). -/
inductive CheckerKind
  | rank (source : Int)
  | notOwnerTarget (source : Nat)
  | compareUsersRank (source : Nat)
  | creatorBypass (source : Nat)
deriving Repr, DecidableEq

/-- A checker instance: its kind plus the `check_order` and `stop_on_success`
metadata declared in `BaseParamChecker.__init__`. -/
structure Checker where
  kind : CheckerKind
  check_order : CheckOrder
  stop_on_success : Bool
deriving Repr, DecidableEq

/-- roles/services/checkers.py `RankChecker(...)` with default metadata
(`check_order='post'`, `stop_on_success=False`). -/
def RankChecker (source : Int) : Checker :=
  { kind := .rank source, check_order := .post, stop_on_success := false }

/-- roles/services/checkers.py `NotOwnerTargetChecker(...)` with default
metadata. -/
def NotOwnerTargetChecker (source : Nat) : Checker :=
  { kind := .notOwnerTarget source, check_order := .post, stop_on_success := false }

/-- roles/services/checkers.py `CompareUsersRankChecker(...)` with default
metadata. -/
def CompareUsersRankChecker (source : Nat) : Checker :=
  { kind := .compareUsersRank source, check_order := .post, stop_on_success := false }

/-- roles/services/checkers.py `CreatorBypassChecker(...)`: its constructor
overrides the defaults to `check_order='pre'`, `stop_on_success=True`. -/
def CreatorBypassChecker (source : Nat) : Checker :=
  { kind := .creatorBypass source, check_order := .pre, stop_on_success := true }

/-- roles/services/checkers.py `BaseParamChecker._get_user_rank`:
`max(roles, key=...).rank`. Python's `max` raises ValueError on an empty
iterable, hence the `Option`. -/
def get_user_rank : List Role → Option Int
  | [] => none
  | r :: rs => some (rs.foldl (fun m x => max m x.rank) r.rank)

/-- The query inside `CompareUsersRankChecker._check`:
`Role.objects.filter(project_id=..., members__user_id=source)
.order_by('-rank').first()` — the greatest rank among the roles explicitly
assigned to the target in the project, `none` when the target holds no
explicit assignment (the everyone role has no membership rows, so it never
matches this filter). -/
def targetHighestRank (db : DB) (project : Project) (source : Nat) : Option Int :=
  match db.roles.filter
      (fun r => r.project_id = project.id && isMemberOfRole db r.id source) with
  | [] => none
  | r :: rs => some (rs.foldl (fun m x => max m x.rank) r.rank)

/-- Evaluate a checker's `_check` (roles/services/checkers.py). `Except.error`
models a raised exception other than PermissionDenied: ValueError from `max`
on an empty role list, AttributeError from `highest_role.rank` when the
target-rank query returns no row. In `CompareUsersRankChecker` the acting
rank (left operand) is evaluated before `highest_role.rank`, matching
Python's evaluation order on the comparison line. -/
def evalChecker (db : DB) (project : Project) (user_id : Nat) (roles : List Role) :
    Checker → Except String Bool
  | { kind := .rank source, .. } =>
    match get_user_rank roles with
    | none => .error "ValueError"
    | some m => .ok (decide (source < m))
  | { kind := .notOwnerTarget _, .. } => .ok (decide (project.owner_id ≠ user_id))
  | { kind := .compareUsersRank source, .. } =>
    if project.owner_id = user_id then .ok true
    else if project.owner_id = source then .ok false
    else
      match get_user_rank roles with
      | none => .error "ValueError"
      | some m =>
        match targetHighestRank db project source with
        | none => .error "AttributeError"
        | some tr => .ok (decide (tr < m))
  | { kind := .creatorBypass source, .. } => .ok (decide (user_id = source))

/-- The observable result of a guard invocation: normal return, a raised
PermissionDenied, or any other raised exception. -/
inductive Outcome
  | allowed
  | denied
  | error (msg : String)
deriving Repr, DecidableEq

/-- The result of `_verify_permissions`: normal return, PermissionDenied, or
another exception (KeyError). -/
inductive VerifyResult
  | ok
  | permissionDenied
  | exc (msg : String)
deriving Repr, DecidableEq

namespace Permissions

/-- roles/services/permissions.py `_has_any_permission`: `any` over
`user_permissions[name]` truthiness — a `None` entry is falsy; a codename
absent from the map raises KeyError. -/
def has_any_permission (m : PermMap) : List String → Except String Bool
  | [] => .ok false
  | n :: ns =>
    match assoc n m with
    | none => .error "KeyError"
    | some v => if v = some true then .ok true else has_any_permission m ns

/-- roles/services/permissions.py `_verify_permissions`: resolve the member's
permission map and raise PermissionDenied unless any of the listed codenames
is true. -/
def verify_permissions (db : DB) (project : Project) (user_id : Nat)
    (roles : List Role) (perms : List String) (c : Cache) : VerifyResult × Cache :=
  let mc := get_member_permissions_inner db project user_id roles c
  match has_any_permission mc.1 perms with
  | .error e => (.exc e, mc.2)
  | .ok true => (.ok, mc.2)
  | .ok false => (.permissionDenied, mc.2)

/-- roles/services/permissions.py `check_permissions` lines 145-147: the
checker loop. It iterates the checkers in the order given, consulting neither
`check_order` nor `stop_on_success`; the first failing checker raises
PermissionDenied, an exception inside a checker propagates. -/
def runCheckers (db : DB) (project : Project) (user_id : Nat) (roles : List Role) :
    List Checker → Outcome
  | [] => .allowed
  | ch :: rest =>
    match evalChecker db project user_id roles ch with
    | .error e => .error e
    | .ok false => .denied
    | .ok true => runCheckers db project user_id roles rest

/-- Store a boolean into the check-result cache layer
(`cache.cache_permissions_check`). -/
def cachePermissionsCheck (project_id user_id : Nat) (required : List String)
    (b : Bool) (c : Cache) : Cache :=
  { c with permCheck := ((project_id, user_id, required), b) :: c.permCheck }

/-- roles/services/permissions.py `check_permissions` (the guard body):
owner fast path; `only_owner` denial; fetch roles; if permissions are
required, consult the check-result cache — on a hit `False` raise
PermissionDenied, on a miss compute `_verify_permissions` over the required
set plus `PROJECT_MANAGE`, caching the boolean but swallowing the
PermissionDenied it raised (the `except` branch does not re-raise); finally
run every checker. -/
def check_permissions (db : DB) (required : List String) (project : Project)
    (user_id : Nat) (only_owner : Bool) (checkers : List Checker) (c : Cache) :
    Outcome × Cache :=
  if project.owner_id = user_id then (.allowed, c)
  else if only_owner then (.denied, c)
  else
    let fetched := fetch_user_roles_with_permissions db project user_id c
    let user_roles := fetched.1
    let gate : Option Outcome × Cache :=
      if required.isEmpty then (none, fetched.2)
      else
        match assoc (project.id, user_id, required) fetched.2.permCheck with
        | some b => (if b then none else some .denied, fetched.2)
        | none =>
          match verify_permissions db project user_id user_roles
              (required ++ [PROJECT_MANAGE]) fetched.2 with
          | (.ok, c2) => (none, cachePermissionsCheck project.id user_id required true c2)
          | (.permissionDenied, c2) =>
            (none, cachePermissionsCheck project.id user_id required false c2)
          | (.exc e, c2) => (some (.error e), c2)
    match gate with
    | (some o, c2) => (o, c2)
    | (none, c2) => (runCheckers db project user_id user_roles checkers, c2)

end Permissions

namespace Services

/-- The query of roles/services/services.py `_get_user_roles_with_permissions`:
assigned roles plus the everyone role of the project, rank-descending
(`distinct()` is a no-op in this model: each stored role appears once). -/
def get_user_roles_with_permissions (db : DB) (project_id user_id : Nat) : List Role :=
  sortByRankDesc
    (db.roles.filter
      (fun r => r.project_id = project_id && (isMemberOfRole db r.id user_id || r.is_everyone)))

/-- roles/services/services.py `get_member_permissions`: pure recomputation —
initialize the map to `None` per catalog codename, then run the role loop
(`_process_roles_permissions` with `_apply_role_permissions` and
`_fill_missing_with_defaults`, the same algorithm as the loop in
roles/services/permissions.py). -/
def get_member_permissions (db : DB) (project_id user_id : Nat) : PermMap :=
  let m0 : PermMap := db.catalog.map (fun p => (p.codename, (none : Option Bool)))
  let defaults := db.catalog.map (fun p => (p.codename, p.default_value))
  Permissions.processRoles defaults (get_user_roles_with_permissions db project_id user_id) m0

/-- roles/services/services.py `has_permission`: the requested codename is
truthy, or `PROJECT_MANAGE` is truthy, or a project row with this owner
exists (`Project.objects.filter(id=..., owner_id=...).exists()`). A map value
of `None` and an absent codename (`dict.get` default `False`) are both
falsy. -/
def has_permission (db : DB) (project_id user_id : Nat) (perm : String) : Bool :=
  let all := get_member_permissions db project_id user_id
  (assoc perm all = some (some true)) ||
  (assoc PROJECT_MANAGE all = some (some true)) ||
  db.projects.any (fun p => p.id = project_id && p.owner_id = user_id)

end Services

/-- First explicit non-null value a role's row list states for codename `X`
(the value the resolution fold would write into a still-open entry). -/
def roleFirstValue : List RolePermission → String → Option Bool
  | [], _ => none
  | row :: rest, X =>
    match row.value with
    | some v => if row.permission_id = X then some v else roleFirstValue rest X
    | none => roleFirstValue rest X

theorem assoc_map_mem {β : Type} (l : List Permission) (f : Permission → β) (X : String)
    (hX : X ∈ l.map (·.codename)) :
    ∃ q, q ∈ l ∧ q.codename = X ∧ assoc X (l.map fun p => (p.codename, f p)) = some (f q) := by
  induction l with
  | nil => simp at hX
  | cons p rest ih =>
    by_cases h : X = p.codename
    · exact ⟨p, by simp, h.symm, by simp [assoc, h]⟩
    · simp only [List.map_cons, List.mem_cons] at hX
      rcases hX with h' | h'
      · exact absurd h' h
      · obtain ⟨q, hq, hqc, hqa⟩ := ih h'
        exact ⟨q, by simp [hq], hqc, by simpa [assoc, h] using hqa⟩

theorem assoc_init_none (l : List Permission) (X : String)
    (hX : X ∈ l.map (·.codename)) :
    assoc X (l.map fun p => (p.codename, (none : Option Bool))) = some none := by
  obtain ⟨q, _, _, hqa⟩ := assoc_map_mem l (fun _ => (none : Option Bool)) X hX
  exact hqa

theorem assoc_defaults (l : List Permission) (q : Permission)
    (hnd : (l.map (·.codename)).Nodup) (hq : q ∈ l) :
    assoc q.codename (l.map fun p => (p.codename, p.default_value)) =
      some q.default_value := by
  obtain ⟨p, hp, hpc, hpa⟩ :=
    assoc_map_mem l (·.default_value) q.codename (List.mem_map_of_mem _ hq)
  have hpq : p = q := List.inj_on_of_nodup_map hnd hp hq hpc
  rw [hpq] at hpa
  exact hpa

theorem assoc_cons {κ α : Type} [DecidableEq κ] (k k' : κ) (v : α)
    (rest : List (κ × α)) :
    assoc k ((k', v) :: rest) = if k = k' then some v else assoc k rest := rfl

namespace Permissions

theorem updateEntry_cons (p : String × Option Bool) (rest : PermMap) (k : String)
    (v : Option Bool) :
    updateEntry (p :: rest) k v =
      (if p.1 = k then (p.1, v) else p) :: updateEntry rest k v := rfl

theorem assoc_updateEntry_self (m : PermMap) (k : String) (v : Option Bool) :
    assoc k (updateEntry m k v) = (assoc k m).map (fun _ => v) := by
  induction m with
  | nil => simp [assoc, updateEntry]
  | cons p rest ih =>
    rcases p with ⟨pk, pv⟩
    rw [updateEntry_cons]
    by_cases h : pk = k
    · rw [if_pos h]
      rw [assoc_cons, assoc_cons, if_pos h.symm, if_pos h.symm]
      rfl
    · rw [if_neg h]
      have h' : ¬ k = pk := fun hh => h hh.symm
      rw [assoc_cons, assoc_cons, if_neg h', if_neg h']
      exact ih

theorem assoc_updateEntry_ne (m : PermMap) (k k' : String) (v : Option Bool)
    (h : k ≠ k') : assoc k (updateEntry m k' v) = assoc k m := by
  induction m with
  | nil => simp [updateEntry]
  | cons p rest ih =>
    rcases p with ⟨pk, pv⟩
    rw [updateEntry_cons]
    by_cases h2 : pk = k'
    · rw [if_pos h2]
      have h3 : ¬ k = pk := by rw [h2]; exact h
      rw [assoc_cons, assoc_cons, if_neg h3, if_neg h3]
      exact ih
    · rw [if_neg h2]
      by_cases h3 : k = pk
      · rw [assoc_cons, assoc_cons, if_pos h3, if_pos h3]
      · rw [assoc_cons, assoc_cons, if_neg h3, if_neg h3]
        exact ih

theorem assoc_applyRow_some (m : PermMap) (row : RolePermission) (X : String) (v : Bool)
    (h : assoc X m = some (some v)) :
    assoc X (applyRowIfOpen m row) = some (some v) := by
  unfold applyRowIfOpen
  rcases hv : row.value with _ | w
  · exact h
  · dsimp only
    by_cases hc : assoc row.permission_id m = some none
    · by_cases hk : row.permission_id = X
      · rw [hk] at hc; rw [h] at hc; simp at hc
      · rw [if_pos hc, assoc_updateEntry_ne m X row.permission_id _ (Ne.symm hk)]
        exact h
    · simp only [if_neg hc]
      exact h

theorem assoc_foldRows_some (rows : List RolePermission) (m : PermMap) (X : String)
    (v : Bool) (h : assoc X m = some (some v)) :
    assoc X (rows.foldl applyRowIfOpen m) = some (some v) := by
  induction rows generalizing m with
  | nil => exact h
  | cons row rest ih => exact ih _ (assoc_applyRow_some m row X v h)

theorem assoc_foldRows_none (rows : List RolePermission) (m : PermMap) (X : String)
    (h : assoc X m = some none) :
    assoc X (rows.foldl applyRowIfOpen m) = some (roleFirstValue rows X) := by
  induction rows generalizing m with
  | nil => simpa [roleFirstValue]
  | cons row rest ih =>
    simp only [List.foldl_cons]
    rcases hv : row.value with _ | w
    · have heq : applyRowIfOpen m row = m := by unfold applyRowIfOpen; rw [hv]
      rw [heq]
      simp only [roleFirstValue, hv]
      exact ih m h
    · by_cases hk : row.permission_id = X
      · have hc : assoc row.permission_id m = some none := by rw [hk]; exact h
        have heq : applyRowIfOpen m row = updateEntry m row.permission_id (some w) := by
          unfold applyRowIfOpen; rw [hv]; simp [hc]
        have h2 : assoc X (updateEntry m row.permission_id (some w)) = some (some w) := by
          rw [hk, assoc_updateEntry_self, h]; rfl
        rw [heq, assoc_foldRows_some rest _ X w h2]
        simp [roleFirstValue, hv, hk]
      · have h2 : assoc X (applyRowIfOpen m row) = some none := by
          unfold applyRowIfOpen
          rw [hv]
          dsimp only
          by_cases hc : assoc row.permission_id m = some none
          · rw [if_pos hc, assoc_updateEntry_ne m X row.permission_id _ (Ne.symm hk)]
            exact h
          · simp only [if_neg hc]; exact h
        rw [ih _ h2]
        simp [roleFirstValue, hv, hk]

theorem apply_default_cons (p : String × Option Bool) (rest : PermMap)
    (d : List (String × Bool)) :
    apply_default_permissions (p :: rest) d =
      (match p.2 with
        | none => (p.1, assoc p.1 d)
        | some v => (p.1, some v)) :: apply_default_permissions rest d := rfl

theorem assoc_apply_default (m : PermMap) (d : List (String × Bool)) (X : String) :
    assoc X (apply_default_permissions m d) =
      match assoc X m with
      | none => none
      | some none => some (assoc X d)
      | some (some v) => some (some v) := by
  induction m with
  | nil => simp [assoc, apply_default_permissions]
  | cons p rest ih =>
    rcases p with ⟨k, val⟩
    rw [apply_default_cons]
    by_cases h : X = k
    · cases val <;> simp [assoc_cons, h]
    · cases val <;> simp only [assoc_cons, if_neg h] <;> exact ih

theorem assoc_processRoles_some (d : List (String × Bool)) (roles : List Role)
    (m : PermMap) (X : String) (v : Bool) (h : assoc X m = some (some v)) :
    assoc X (processRoles d roles m) = some (some v) := by
  induction roles generalizing m with
  | nil => exact h
  | cons r rest ih =>
    have h1 : assoc X (apply_role_permissions r m) = some (some v) :=
      assoc_foldRows_some r.permissions m X v h
    by_cases he : r.is_everyone
    · simp [processRoles, he, assoc_apply_default, h1]
    · simpa [processRoles, he] using ih _ h1

theorem assoc_processRoles_no_everyone (d : List (String × Bool)) (roles : List Role)
    (m : PermMap) (X : String)
    (he : ∀ r ∈ roles, r.is_everyone = false)
    (hn : ∀ r ∈ roles, roleFirstValue r.permissions X = none)
    (h : assoc X m = some none) :
    assoc X (processRoles d roles m) = some none := by
  induction roles generalizing m with
  | nil => exact h
  | cons r rest ih =>
    have h1 : assoc X (apply_role_permissions r m) = some none := by
      have := assoc_foldRows_none r.permissions m X h
      rwa [hn r (by simp)] at this
    have he1 : r.is_everyone = false := he r (by simp)
    simp only [processRoles, he1, Bool.false_eq_true, if_false]
    exact ih _ (fun x hx => he x (by simp [hx])) (fun x hx => hn x (by simp [hx])) h1

theorem assoc_foldRows_inert (rows : List RolePermission) (m : PermMap) (X : String)
    (hn : roleFirstValue rows X = none) :
    assoc X (rows.foldl applyRowIfOpen m) = assoc X m := by
  induction rows generalizing m with
  | nil => rfl
  | cons row rest ih =>
    simp only [List.foldl_cons]
    rcases hv : row.value with _ | w
    · have heq : applyRowIfOpen m row = m := by unfold applyRowIfOpen; rw [hv]
      rw [heq]
      exact ih _ (by simpa [roleFirstValue, hv] using hn)
    · have hk : row.permission_id ≠ X := by
        intro hkk
        simp [roleFirstValue, hv, hkk] at hn
      have h2 : assoc X (applyRowIfOpen m row) = assoc X m := by
        unfold applyRowIfOpen
        rw [hv]
        dsimp only
        by_cases hc : assoc row.permission_id m = some none
        · rw [if_pos hc, assoc_updateEntry_ne m X row.permission_id _ (Ne.symm hk)]
        · rw [if_neg hc]
      have hn' : roleFirstValue rest X = none := by
        simpa [roleFirstValue, hv, hk] using hn
      rw [ih _ hn', h2]

theorem processRoles_cons (d : List (String × Bool)) (r : Role) (rs : List Role)
    (m : PermMap) :
    processRoles d (r :: rs) m =
      if r.is_everyone then
        apply_default_permissions (apply_role_permissions r m) d
      else processRoles d rs (apply_role_permissions r m) := rfl

theorem map_fst_updateEntry (m : PermMap) (k : String) (v : Option Bool) :
    (updateEntry m k v).map (·.1) = m.map (·.1) := by
  induction m with
  | nil => rfl
  | cons p rest ih =>
    rw [updateEntry_cons]
    by_cases h : p.1 = k
    · simp only [if_pos h, List.map_cons, ih]
    · simp only [if_neg h, List.map_cons, ih]

theorem map_fst_applyRow (m : PermMap) (row : RolePermission) :
    (applyRowIfOpen m row).map (·.1) = m.map (·.1) := by
  unfold applyRowIfOpen
  rcases row.value with _ | w
  · rfl
  · dsimp only
    by_cases hc : assoc row.permission_id m = some none
    · rw [if_pos hc, map_fst_updateEntry]
    · rw [if_neg hc]

theorem map_fst_foldRows (rows : List RolePermission) (m : PermMap) :
    (rows.foldl applyRowIfOpen m).map (·.1) = m.map (·.1) := by
  induction rows generalizing m with
  | nil => rfl
  | cons row rest ih => rw [List.foldl_cons, ih, map_fst_applyRow]

theorem apply_default_isSome (m : PermMap) (d : List (String × Bool))
    (h : ∀ k ∈ m.map (·.1), (assoc k d).isSome) :
    ∀ pr ∈ apply_default_permissions m d, pr.2.isSome := by
  intro pr hpr
  unfold apply_default_permissions at hpr
  rw [List.mem_map] at hpr
  obtain ⟨q, hq, hqe⟩ := hpr
  rcases hv : q.2 with _ | v
  · rw [hv] at hqe
    dsimp only at hqe
    rw [← hqe]
    exact h q.1 (List.mem_map.mpr ⟨q, hq, rfl⟩)
  · rw [hv] at hqe
    dsimp only at hqe
    rw [← hqe]
    rfl

theorem roleFirstValue_of_all_none (rows : List RolePermission) (X : String)
    (h : ∀ row ∈ rows, row.value = none) : roleFirstValue rows X = none := by
  induction rows with
  | nil => rfl
  | cons row rest ih =>
    have hv : row.value = none := h row (by simp)
    simp only [roleFirstValue, hv]
    exact ih (fun x hx => h x (by simp [hx]))

theorem get_member_permissions_inner_compute (db : DB) (P : Project) (u : Nat)
    (roles : List Role) (c : Cache)
    (hu : ¬ P.owner_id = u) (hcp : assoc (P.id, u) c.userPerms = none) :
    (get_member_permissions_inner db P u roles c).1 =
      processRoles (db.catalog.map fun p => (p.codename, p.default_value)) roles
        (db.catalog.map fun p => (p.codename, (none : Option Bool))) := by
  unfold get_member_permissions_inner
  rw [if_neg hu, hcp]

theorem get_member_permissions_compute (db : DB) (P : Project) (u : Nat) (c : Cache)
    (hu : ¬ P.owner_id = u)
    (hcr : assoc (P.id, u) c.userRoles = none)
    (hcp : assoc (P.id, u) c.userPerms = none) :
    (get_member_permissions db P u c).1 =
      processRoles (db.catalog.map fun p => (p.codename, p.default_value))
        (queryUserRoles db P u)
        (db.catalog.map fun p => (p.codename, (none : Option Bool))) := by
  unfold get_member_permissions fetch_user_roles_with_permissions
  rw [hcr]
  exact get_member_permissions_inner_compute db P u _ _ hu hcp

end Permissions

theorem mem_insertByRankDesc (a r : Role) (l : List Role) :
    a ∈ insertByRankDesc r l ↔ a = r ∨ a ∈ l := by
  induction l with
  | nil => simp [insertByRankDesc]
  | cons x xs ih =>
    unfold insertByRankDesc
    by_cases h : x.rank < r.rank
    · simp [h]
    · simp only [if_neg h, List.mem_cons, ih]
      tauto

theorem mem_sortByRankDesc (a : Role) (l : List Role) :
    a ∈ sortByRankDesc l ↔ a ∈ l := by
  induction l with
  | nil => simp [sortByRankDesc]
  | cons x xs ih =>
    unfold sortByRankDesc at *
    rw [List.foldr_cons, mem_insertByRankDesc, ih, List.mem_cons]

theorem isMemberOfRole_eq_false (db : DB) (rid u : Nat)
    (h : ∀ mr ∈ db.memberships, mr.user_id ≠ u) : isMemberOfRole db rid u = false := by
  unfold isMemberOfRole
  rw [List.any_eq_false]
  intro mr hmr
  simp [h mr hmr]

/-! Concrete fixtures used by witnesses, counterexamples and failing-input
evaluations. Project 1 is owned by user 1; user 2 is a non-owner member. -/

/-- Project 1, owned by user 1. -/
def wProj : Project := { id := 1, owner_id := 1 }

/-- The auto-created everyone role of project 1 (rank 0, no explicit rows). -/
def wEveryone : Role :=
  { id := 10, project_id := 1, rank := 0, is_everyone := true, permissions := [] }

/-- A rank-10 role with no explicit permission rows. -/
def wMod : Role :=
  { id := 11, project_id := 1, rank := 10, is_everyone := false, permissions := [] }

/-- A rank-5 role with no explicit permission rows. -/
def wLow : Role :=
  { id := 13, project_id := 1, rank := 5, is_everyone := false, permissions := [] }

/-- A two-entry catalog: "x" and the manage-all codename, both defaulting to
false. -/
def wCatalog : List Permission :=
  [{ codename := "x", default_value := false },
   { codename := "project_manage", default_value := false }]

/-- Store state for the C1 scenario: user 2 holds only the everyone role and
so lacks "x" and "project_manage" (both default false). -/
def dbC1 : DB :=
  { projects := [wProj], catalog := wCatalog, roles := [wEveryone], memberships := [] }

/-- Store state where acting user 2 holds the rank-10 role and no other user
holds any explicit role. -/
def dbChk : DB :=
  { projects := [wProj], catalog := wCatalog, roles := [wMod, wEveryone],
    memberships := [{ role_id := 11, user_id := 2 }] }

/-- Store state where acting user 2 holds the rank-10 role and target user 3
holds the rank-5 role. -/
def dbCmp : DB :=
  { projects := [wProj], catalog := wCatalog, roles := [wMod, wLow, wEveryone],
    memberships := [{ role_id := 11, user_id := 2 }, { role_id := 13, user_id := 3 }] }

/-- An everyone role carrying an explicit override row "x" -> true. -/
def wEvOverride : Role :=
  { id := 12, project_id := 1, rank := 0, is_everyone := true,
    permissions := [{ permission_id := "x", value := some true }] }

/-- Store state whose everyone role explicitly overrides "x" to true while the
catalog default of "x" is false. -/
def dbEvOv : DB :=
  { projects := [wProj], catalog := wCatalog, roles := [wEvOverride], memberships := [] }

/-- Store state with NO everyone role: user 2 holds only a rank-5 role that
states no opinion on anything. -/
def dbNoEv : DB :=
  { projects := [wProj], catalog := wCatalog, roles := [wLow],
    memberships := [{ role_id := 13, user_id := 2 }] }

/-- Rank-10 role granting "x" explicitly. -/
def wA4 : Role :=
  { id := 20, project_id := 1, rank := 10, is_everyone := false,
    permissions := [{ permission_id := "x", value := some true }] }

/-- Rank-5 role denying "x" explicitly. -/
def wB4 : Role :=
  { id := 21, project_id := 1, rank := 5, is_everyone := false,
    permissions := [{ permission_id := "x", value := some false }] }

/-- Store state for the rank-precedence scenario: user 2 holds both the
rank-10 granting role and the rank-5 denying role, stored low-rank first. -/
def dbPrec : DB :=
  { projects := [wProj], catalog := wCatalog, roles := [wB4, wA4, wEveryone],
    memberships := [{ role_id := 20, user_id := 2 }, { role_id := 21, user_id := 2 }] }

/-- C1: for a guard invocation where the acting user is not the owner,
`only_owner` is false and the user lacks every required permission and
PROJECT_MANAGE, the claim says the guard denies with a forbidden outcome even
on the first, cache-missing invocation. The code evaluated at that failing
input does the opposite: `_verify_permissions` raises PermissionDenied, the
`except` branch caches False and swallows it, and the first invocation
returns normally (allowed); only the second invocation, hitting the cached
False, denies. -/
theorem check_permissions_first_invocation_swallows_denial :
    (Permissions.verify_permissions dbC1 wProj 2 (Permissions.queryUserRoles dbC1 wProj 2)
        (["x"] ++ [PROJECT_MANAGE]) emptyCache).1 = VerifyResult.permissionDenied ∧
    (Permissions.check_permissions dbC1 ["x"] wProj 2 false [] emptyCache).1
      = Outcome.allowed ∧
    assoc (1, 2, ["x"])
        (Permissions.check_permissions dbC1 ["x"] wProj 2 false [] emptyCache).2.permCheck
      = some false ∧
    (Permissions.check_permissions dbC1 ["x"] wProj 2 false []
        (Permissions.check_permissions dbC1 ["x"] wProj 2 false [] emptyCache).2).1
      = Outcome.denied :=
  ⟨by decide, by decide, by decide, by decide⟩

/-- C2: the claim says pre-order checkers run before the permission gate,
post-order checkers after it, and a passing checker with `stop_on_success`
skips the rest of the chain. The code evaluated at a failing input: a
CreatorBypassChecker (declared pre, stop-on-success) passes for acting user
2, yet the chain goes on to run the RankChecker (rank 10 vs source 10, which
fails) and the guard denies; `check_order` and `stop_on_success` are never
consulted by the chain runner. -/
theorem check_permissions_checker_metadata_ignored :
    evalChecker dbChk wProj 2 [wMod, wEveryone] (CreatorBypassChecker 2)
      = Except.ok true ∧
    (CreatorBypassChecker 2).stop_on_success = true ∧
    (CreatorBypassChecker 2).check_order = CheckOrder.pre ∧
    Permissions.runCheckers dbChk wProj 2 [wMod, wEveryone]
        [CreatorBypassChecker 2, RankChecker 10] = Outcome.denied ∧
    (Permissions.check_permissions dbChk [] wProj 2 false
        [CreatorBypassChecker 2, RankChecker 10] emptyCache).1 = Outcome.denied :=
  ⟨rfl, rfl, rfl, rfl, by decide⟩

/-- C10: the claim says CompareUsersRankChecker evaluation is total for a
non-owner target with no explicit role assignments, comparing against the
everyone rank 0. The code evaluated at that failing input: the rank query
filters only explicit memberships, `first()` returns no row, and
`highest_role.rank` raises AttributeError — the checker errors instead of
returning a boolean, and the whole guard invocation errors. -/
theorem compare_users_rank_checker_crashes_on_roleless_target :
    evalChecker dbChk wProj 2 [wMod, wEveryone] (CompareUsersRankChecker 3)
      = Except.error "AttributeError" ∧
    Permissions.runCheckers dbChk wProj 2 [wMod, wEveryone] [CompareUsersRankChecker 3]
      = Outcome.error "AttributeError" ∧
    (Permissions.check_permissions dbChk [] wProj 2 false [CompareUsersRankChecker 3]
        emptyCache).1 = Outcome.error "AttributeError" :=
  ⟨rfl, rfl, by decide⟩

/-- C5 counterexample: the claim says resolution for a user with no explicit
assignments equals the catalog defaults for every entry. With the everyone
role carrying an explicit override "x" -> true (reachable through the role
permission batch-update endpoint, which does not exempt the everyone role)
resolution yields true for "x" while its catalog default is false. -/
theorem resolve_defaults_counterexample :
    assoc "x" (Permissions.get_member_permissions dbEvOv wProj 2 emptyCache).1
      = some (some true) ∧
    assoc "x" (dbEvOv.catalog.map fun p => (p.codename, p.default_value)) = some false :=
  ⟨by decide, by decide⟩

/-- C8 counterexample: the claim says that with no everyone role, resolution
surfaces a distinct configuration error rather than completing. The code
completes: the resolved map still holds a null entry for "x", the permission
check treats it as not granted, and the guard produces the ordinary
PermissionDenied — indistinguishable from a plain forbidden outcome. -/
theorem no_everyone_role_counterexample :
    (Permissions.get_member_permissions dbNoEv wProj 2 emptyCache).1
      = [("x", none), ("project_manage", none)] ∧
    (Permissions.verify_permissions dbNoEv wProj 2
        (Permissions.queryUserRoles dbNoEv wProj 2) ["x"] emptyCache).1
      = VerifyResult.permissionDenied :=
  ⟨by decide, by decide⟩

/-- C9 counterexample: the claim says the full range [0,100] is admissible for
roles accepted by validation; the model's validators
(`MinValueValidator(1), MaxValueValidator(100)`) reject rank 0. -/
theorem rank_zero_not_admissible : rankValid 0 = false := by decide

/-- C9 (amended): validation admits exactly the ranks in [1,100]; the
auto-created everyone role is built with rank 0 and `is_everyone` set,
outside the validated range; consequently every validated rank also lies in
[0,100]. -/
theorem rank_bounds (r : Int) (pj : Project) :
    (rankValid r = true ↔ 1 ≤ r ∧ r ≤ 100) ∧
    (create_everyone_role pj).rank = 0 ∧
    (create_everyone_role pj).is_everyone = true ∧
    (rankValid r = true → 0 ≤ r ∧ r ≤ 100) := by
  refine ⟨?_, rfl, rfl, ?_⟩
  · simp [rankValid]
  · intro h
    simp [rankValid] at h
    omega

/-- Witness for the C9 theorem at rank 42 and a concrete project. -/
theorem rank_bounds_witness :
    (0 ≤ (42 : Int) ∧ (42 : Int) ≤ 100) ∧ (create_everyone_role wProj).rank = 0 :=
  ⟨(rank_bounds 42 wProj).2.2.2 (by decide), (rank_bounds 42 wProj).2.1⟩

/-- C3: owner omnipotence — `has_permission` returns true for the project's
owner for any codename (when the project row exists), and the guard's owner
fast path allows before any other gate runs: it returns `allowed` unchanged
for every required set, `only_owner` flag, checker list and cache state. -/
theorem owner_omnipotence :
    (∀ (db : DB) (project : Project), project ∈ db.projects →
      ∀ perm : String, Services.has_permission db project.id project.owner_id perm = true) ∧
    (∀ (db : DB) (required : List String) (project : Project) (only_owner : Bool)
        (checkers : List Checker) (c : Cache),
      Permissions.check_permissions db required project project.owner_id only_owner checkers c
        = (Outcome.allowed, c)) := by
  constructor
  · intro db project hp perm
    unfold Services.has_permission
    have h3 : db.projects.any (fun p => p.id = project.id && p.owner_id = project.owner_id)
        = true :=
      List.any_eq_true.mpr ⟨project, hp, by simp⟩
    rw [h3]
    simp
  · intro db required project only_owner checkers c
    unfold Permissions.check_permissions
    rw [if_pos rfl]

/-- Witness for C3 at project 1 (owner 1) with an arbitrary codename, a
required permission, `only_owner` set and a non-empty cache. -/
theorem owner_omnipotence_witness :
    Services.has_permission dbC1 wProj.id wProj.owner_id "anything" = true ∧
    Permissions.check_permissions dbC1 ["x"] wProj wProj.owner_id true
        [RankChecker 10] emptyCache = (Outcome.allowed, emptyCache) :=
  ⟨owner_omnipotence.1 dbC1 wProj (by decide) "anything",
   owner_omnipotence.2 dbC1 ["x"] wProj true [RankChecker 10] emptyCache⟩

/-- C6: RankChecker passes exactly when the acting user's highest role rank
strictly exceeds the loaded source value: on any non-empty role list with
maximum rank m it returns `ok (source < m)`, and in particular fails when
the maximum rank equals the source. -/
theorem rank_checker_strictly_greater (db : DB) (project : Project) (user_id : Nat)
    (roles : List Role) (s m : Int) (h : get_user_rank roles = some m) :
    evalChecker db project user_id roles (RankChecker s)
      = Except.ok (decide (s < m)) ∧
    (m = s →
      evalChecker db project user_id roles (RankChecker s) = Except.ok false) := by
  constructor
  · simp [evalChecker, RankChecker, h]
  · intro he
    simp [evalChecker, RankChecker, h, he]

/-- Witness for C6: a single rank-10 role against source rank 10 — the check
fails (not greater-or-equal semantics). -/
theorem rank_checker_strictly_greater_witness :
    evalChecker dbChk wProj 2 [wMod] (RankChecker 10) = Except.ok false :=
  (rank_checker_strictly_greater dbChk wProj 2 [wMod] 10 10 rfl).2 rfl

/-- C7: CompareUsersRankChecker returns true when the acting user is the
owner; returns false when the target (source) user is the owner and the
acting user is not, regardless of ranks; and otherwise, when the acting
user's highest rank is m and the live-looked-up target highest rank is tr,
returns `ok (tr < m)` — passing exactly on strictly greater rank. -/
theorem compare_users_rank_checker_spec (db : DB) (project : Project)
    (user_id source : Nat) (roles : List Role) :
    (project.owner_id = user_id →
      evalChecker db project user_id roles (CompareUsersRankChecker source)
        = Except.ok true) ∧
    (project.owner_id ≠ user_id → project.owner_id = source →
      evalChecker db project user_id roles (CompareUsersRankChecker source)
        = Except.ok false) ∧
    (∀ m tr : Int, project.owner_id ≠ user_id → project.owner_id ≠ source →
      get_user_rank roles = some m → targetHighestRank db project source = some tr →
      evalChecker db project user_id roles (CompareUsersRankChecker source)
        = Except.ok (decide (tr < m))) := by
  refine ⟨?_, ?_, ?_⟩
  · intro h
    simp [evalChecker, CompareUsersRankChecker, h]
  · intro h1 h2
    have h3 : source ≠ user_id := fun hh => h1 (by rw [← hh]; exact h2)
    simp [evalChecker, CompareUsersRankChecker, h1, h2, h3]
  · intro m tr h1 h2 hm htr
    simp [evalChecker, CompareUsersRankChecker, h1, h2, hm, htr]

/-- Witness for C7: acting user 2 (highest rank 10) against target user 3
(highest explicit rank 5), neither the owner — the check passes. -/
theorem compare_users_rank_checker_spec_witness :
    evalChecker dbCmp wProj 2 [wMod, wEveryone] (CompareUsersRankChecker 3)
      = Except.ok true :=
  (compare_users_rank_checker_spec dbCmp wProj 2 3 [wMod, wEveryone]).2.2 10 5
    (by decide) (by decide) rfl (by decide)

/-- C4: in the resolution merge over rank-descending roles, the first non-null
explicit value for a codename wins and is never overwritten by later
(lower-ranked) roles; a role stating only null for a codename leaves it open
(does not change its entry); and concretely, a non-owner user holding role A
(rank 10, X=true) and role B (rank 5, X=false) resolves X to true whichever
order the two roles are stored in. -/
theorem resolution_rank_precedence :
    (∀ (d : List (String × Bool)) (roles : List Role) (m : PermMap)
        (X : String) (v : Bool),
      assoc X m = some (some v) →
      assoc X (Permissions.processRoles d roles m) = some (some v)) ∧
    (∀ (role : Role) (m : PermMap) (X : String),
      roleFirstValue role.permissions X = none →
      assoc X (Permissions.apply_role_permissions role m) = assoc X m) ∧
    (∀ (db : DB) (P : Project) (u : Nat) (c : Cache) (X : String) (A B E : Role),
      P.owner_id ≠ u →
      X ∈ db.catalog.map (·.codename) →
      A.rank = 10 → B.rank = 5 → E.rank = 0 →
      A.is_everyone = false → B.is_everyone = false → E.is_everyone = true →
      A.project_id = P.id → B.project_id = P.id → E.project_id = P.id →
      A.permissions = [{ permission_id := X, value := some true }] →
      B.permissions = [{ permission_id := X, value := some false }] →
      isMemberOfRole db A.id u = true → isMemberOfRole db B.id u = true →
      (db.roles = [A, B, E] ∨ db.roles = [B, A, E]) →
      assoc (P.id, u) c.userRoles = none →
      assoc (P.id, u) c.userPerms = none →
      assoc X (Permissions.get_member_permissions db P u c).1 = some (some true)) := by
  refine ⟨Permissions.assoc_processRoles_some,
          fun role m X h => Permissions.assoc_foldRows_inert role.permissions m X h, ?_⟩
  intro db P u c X A B E hu hX hAr hBr hEr hAe hBe hEe hAid hBid hEid hAp hBp hmA hmB
    hroles hcr hcp
  have hq : Permissions.queryUserRoles db P u = [A, B, E] := by
    unfold Permissions.queryUserRoles
    have hs : sortByRankDesc [A, B, E] = [A, B, E] := by
      simp [sortByRankDesc, insertByRankDesc, hAr, hBr, hEr]
    have hs2 : sortByRankDesc [B, A, E] = [A, B, E] := by
      simp [sortByRankDesc, insertByRankDesc, hAr, hBr, hEr]
    rcases hroles with hr | hr <;> rw [hr]
    · rw [show (List.filter _ [A, B, E]) = [A, B, E] by
        simp [hAid, hBid, hEid, hmA, hmB, hEe]]
      exact hs
    · rw [show (List.filter _ [B, A, E]) = [B, A, E] by
        simp [hAid, hBid, hEid, hmA, hmB, hEe]]
      exact hs2
  rw [Permissions.get_member_permissions_compute db P u c (fun h => hu h) hcr hcp, hq]
  have hm0 : assoc X (db.catalog.map fun p => (p.codename, (none : Option Bool)))
      = some none := assoc_init_none db.catalog X hX
  have hA1 : assoc X (Permissions.apply_role_permissions A
      (db.catalog.map fun p => (p.codename, (none : Option Bool)))) = some (some true) := by
    unfold Permissions.apply_role_permissions
    rw [hAp]
    simp only [List.foldl_cons, List.foldl_nil]
    unfold Permissions.applyRowIfOpen
    dsimp only
    rw [if_pos hm0, Permissions.assoc_updateEntry_self, hm0]
    rfl
  rw [Permissions.processRoles_cons,
    if_neg (by simp [hAe] : ¬ (A.is_everyone = true))]
  exact Permissions.assoc_processRoles_some _ [B, E] _ X true hA1

/-- Witness for C4 at the concrete store: user 2 holds the rank-10 granting
role and the rank-5 denying role (stored low-rank first) plus the everyone
role; resolution yields X=true. -/
theorem resolution_rank_precedence_witness :
    assoc "x" (Permissions.get_member_permissions dbPrec wProj 2 emptyCache).1
      = some (some true) :=
  resolution_rank_precedence.2.2 dbPrec wProj 2 emptyCache "x" wA4 wB4 wEveryone
    (by decide) (by decide) rfl rfl rfl rfl rfl rfl rfl rfl rfl rfl rfl
    (by decide) (by decide) (Or.inr rfl) rfl rfl

theorem map_fst_apply_role (role : Role) (m : PermMap) :
    (Permissions.apply_role_permissions role m).map (·.1) = m.map (·.1) :=
  Permissions.map_fst_foldRows role.permissions m

/-- C5 (amended): for a non-owner user with no explicit role assignments,
fetching roles yields only everyone roles; and when the project's everyone
role is E (the unique everyone role), resolution is fully populated — every
entry is non-null — and each catalog permission resolves to E's first
explicit non-null value for it when one exists and to the catalog
default_value otherwise; in particular, when E states no non-null value at
all, resolution exactly matches catalog defaults. -/
theorem everyone_role_total_coverage :
    (∀ (db : DB) (P : Project) (u : Nat),
      (∀ mr ∈ db.memberships, mr.user_id ≠ u) →
      ∀ r ∈ Permissions.queryUserRoles db P u, r.is_everyone = true) ∧
    (∀ (db : DB) (P : Project) (u : Nat) (c : Cache) (E : Role),
      P.owner_id ≠ u →
      assoc (P.id, u) c.userRoles = none →
      assoc (P.id, u) c.userPerms = none →
      (∀ mr ∈ db.memberships, mr.user_id ≠ u) →
      db.roles.filter (fun r => r.project_id = P.id && r.is_everyone) = [E] →
      (db.catalog.map (·.codename)).Nodup →
      (∀ pr ∈ (Permissions.get_member_permissions db P u c).1, pr.2.isSome) ∧
      (∀ perm ∈ db.catalog,
        assoc perm.codename (Permissions.get_member_permissions db P u c).1 =
          some (some ((roleFirstValue E.permissions perm.codename).getD
            perm.default_value))) ∧
      ((∀ row ∈ E.permissions, row.value = none) →
       ∀ perm ∈ db.catalog,
        assoc perm.codename (Permissions.get_member_permissions db P u c).1 =
          some (some perm.default_value))) := by
  constructor
  · intro db P u hm r hr
    unfold Permissions.queryUserRoles at hr
    rw [mem_sortByRankDesc, List.mem_filter] at hr
    have h2 := hr.2
    rw [isMemberOfRole_eq_false db r.id u hm] at h2
    simp at h2
    exact h2.2
  · intro db P u c E hu hcr hcp hm hfilter hnd
    have hq : Permissions.queryUserRoles db P u = [E] := by
      unfold Permissions.queryUserRoles
      have hcong : db.roles.filter
            (fun r => r.project_id = P.id && (isMemberOfRole db r.id u || r.is_everyone))
          = db.roles.filter (fun r => r.project_id = P.id && r.is_everyone) := by
        apply List.filter_congr
        intro r hr
        rw [isMemberOfRole_eq_false db r.id u hm]
        simp
      rw [hcong, hfilter]
      rfl
    have hEe : E.is_everyone = true := by
      have hEmem : E ∈ db.roles.filter (fun r => r.project_id = P.id && r.is_everyone) := by
        rw [hfilter]; simp
      rw [List.mem_filter] at hEmem
      have := hEmem.2
      simp at this
      exact this.2
    have hres : (Permissions.get_member_permissions db P u c).1 =
        Permissions.apply_default_permissions
          (Permissions.apply_role_permissions E
            (db.catalog.map fun p => (p.codename, (none : Option Bool))))
          (db.catalog.map fun p => (p.codename, p.default_value)) := by
      rw [Permissions.get_member_permissions_compute db P u c (fun h => hu h) hcr hcp, hq,
        Permissions.processRoles_cons, if_pos hEe]
    have hval : ∀ perm ∈ db.catalog,
        assoc perm.codename (Permissions.get_member_permissions db P u c).1 =
          some (some ((roleFirstValue E.permissions perm.codename).getD
            perm.default_value)) := by
      intro perm hperm
      have hX : perm.codename ∈ db.catalog.map (·.codename) :=
        List.mem_map_of_mem _ hperm
      have hm0 : assoc perm.codename
          (db.catalog.map fun p => (p.codename, (none : Option Bool))) = some none :=
        assoc_init_none db.catalog _ hX
      have h1 : assoc perm.codename
          (Permissions.apply_role_permissions E
            (db.catalog.map fun p => (p.codename, (none : Option Bool))))
          = some (roleFirstValue E.permissions perm.codename) :=
        Permissions.assoc_foldRows_none E.permissions _ _ hm0
      rw [hres, Permissions.assoc_apply_default, h1]
      rcases hrv : roleFirstValue E.permissions perm.codename with _ | v
      · dsimp only
        rw [assoc_defaults db.catalog perm hnd hperm]
        rfl
      · rfl
    refine ⟨?_, hval, ?_⟩
    · rw [hres]
      apply Permissions.apply_default_isSome
      intro k hk
      rw [map_fst_apply_role] at hk
      have hk2 : k ∈ db.catalog.map (·.codename) := by
        rw [List.map_map] at hk
        exact hk
      obtain ⟨q, _, _, hqa⟩ := assoc_map_mem db.catalog (·.default_value) k hk2
      rw [hqa]
      rfl
    · intro hnull perm hperm
      rw [hval perm hperm,
        Permissions.roleFirstValue_of_all_none E.permissions perm.codename hnull]
      rfl

/-- Witness for C5 at the concrete store: user 2 holds no explicit role; the
everyone role states nothing; "x" resolves to its catalog default false. -/
theorem everyone_role_total_coverage_witness :
    assoc "x" (Permissions.get_member_permissions dbC1 wProj 2 emptyCache).1
      = some (some false) :=
  (everyone_role_total_coverage.2 dbC1 wProj 2 emptyCache wEveryone
      (by decide) rfl rfl (by simp [dbC1]) (by decide) (by decide)).2.2
    (by simp [wEveryone]) { codename := "x", default_value := false } (by decide)

/-- C8 (amended): when no everyone role is among the user's roles, resolution
for a non-owner completes normally — an entry no role explicitly sets stays
null — and the permission check treats the null entry as not granted,
raising the ordinary PermissionDenied used for every forbidden outcome; no
distinct configuration error is produced. -/
theorem no_everyone_role_silent_fallthrough (db : DB) (P : Project) (u : Nat)
    (roles : List Role) (c : Cache) (X : String)
    (hu : P.owner_id ≠ u)
    (hcp : assoc (P.id, u) c.userPerms = none)
    (he : ∀ r ∈ roles, r.is_everyone = false)
    (hX : X ∈ db.catalog.map (·.codename))
    (hn : ∀ r ∈ roles, roleFirstValue r.permissions X = none) :
    assoc X (Permissions.get_member_permissions_inner db P u roles c).1 = some none ∧
    (Permissions.verify_permissions db P u roles [X] c).1
      = VerifyResult.permissionDenied := by
  have h1 : assoc X (Permissions.get_member_permissions_inner db P u roles c).1
      = some none := by
    rw [Permissions.get_member_permissions_inner_compute db P u roles c (fun h => hu h) hcp]
    exact Permissions.assoc_processRoles_no_everyone _ roles _ X he hn
      (assoc_init_none db.catalog X hX)
  refine ⟨h1, ?_⟩
  unfold Permissions.verify_permissions
  simp [Permissions.has_any_permission, h1]

/-- Witness for C8 at the concrete store with no everyone role: user 2's only
role states nothing about "x"; resolution leaves "x" null and the check
yields PermissionDenied. -/
theorem no_everyone_role_silent_fallthrough_witness :
    assoc "x" (Permissions.get_member_permissions_inner dbNoEv wProj 2 [wLow]
        emptyCache).1 = some none ∧
    (Permissions.verify_permissions dbNoEv wProj 2 [wLow] ["x"] emptyCache).1
      = VerifyResult.permissionDenied :=
  no_everyone_role_silent_fallthrough dbNoEv wProj 2 [wLow] emptyCache "x"
    (by decide) rfl (by decide) (by decide) (by decide)

end DevSync
